import Mathlib

/-!
Verification of the `runner` package (pkg/concurrency/runner) of the hogo
repository: a bounded-concurrency task runner with error aggregation and
optional cancel-on-first-failure.

The Go code is embedded as a small-step operational semantics.  A
`RunnerState` carries the runner's fields (`sem` capacity and occupancy,
the `syncErrorSlice`, the context cause, the `sync.Once` flag of the
`cancelOnFailure` struct) together with the scheduling state of the
submitted tasks: tasks the caller has not yet passed to `Go` (`pending`,
in call order), goroutines that were spawned but have not yet reached the
`r.ctx.Err() != nil` check (`spawned`), goroutines currently executing
their body (`runningBody`), and goroutines inside the deferred block that
still have to append their non-nil result (`toAppend`) or still have to
call the failure canceler (`toCancel`).  A task is identified with the
value its body returns: `none` models a `nil` error, `some e` a non-nil
error `e`.

The `Step` relation has one constructor per atomic critical section of the
Go code.  In particular the deferred block of the goroutine launched by
`Runner.Go` is NOT one atomic action: `r.errs.Append(result)` locks the
slice mutex, and `r.failCanceler.Cancel(result)` runs under the separate
`sync.Once`, so between a goroutine's append and its cancel attempt other
goroutines may append and cancel.  The model therefore moves each failing
goroutine through the stages `toAppend` (result computed, not yet
appended) and `toCancel` (appended, cancel attempt still pending), with
the semaphore slot and the wait-group entry released only at the end of
its deferred block.  `executed` and `skipped` record, as instrumentation,
which task bodies actually ran and how many tasks were skipped.
-/

set_option autoImplicit false

/-- Error values that occur in the runner package.  `canceled` is
`context.Canceled`, `deadlineExceeded` is `context.DeadlineExceeded`, and
`errorString e` is an error built with `errors.New`.  No error created in
this repository wraps another error. -/
inductive GoError where
  | canceled
  | deadlineExceeded
  | errorString (msg : String)
deriving DecidableEq, Repr

/-- `errors.Is` restricted to the error values of this repository: since no
error here wraps another, `errors.Is` reduces to equality. -/
def errorsIs (err target : GoError) : Bool :=
  err == target

/-- `causeForTaskSkip` from runner.go, with `context.Cause(ctx)` passed in as
an `Option GoError` (`none` when the context is not done, in which case
`context.Cause` returns nil and both `errors.Is` checks fail). -/
def causeForTaskSkip (cause : Option GoError) : GoError :=
  match cause with
  | some c => if errorsIs c .canceled || errorsIs c .deadlineExceeded then c else .canceled
  | none => .canceled

/-- The state of a `Runner` together with the scheduling state of its
tasks.  Lists of `Option GoError` hold tasks identified by the value their
body would return (`none` = the body returns nil). -/
structure RunnerState where
  /-- Tasks the caller has not yet passed to `Runner.Go`, in call order. -/
  pending : List (Option GoError)
  /-- Goroutines spawned by `Go` that have not yet reached the
  `r.ctx.Err() != nil` check. -/
  spawned : List (Option GoError)
  /-- Goroutines past the context check, currently executing `f()`. -/
  runningBody : List (Option GoError)
  /-- Goroutines holding a non-nil `result` (a failed body or a computed
  skip cause) that have not yet performed `r.errs.Append(result)`. -/
  toAppend : List GoError
  /-- Goroutines that appended their `result` and, cancellation on failure
  being configured, have not yet called `r.failCanceler.Cancel(result)`. -/
  toCancel : List GoError
  /-- Instrumentation: tasks whose body ran to completion, with results. -/
  executed : List (Option GoError)
  /-- Instrumentation: number of tasks skipped by the context check. -/
  skipped : Nat
  /-- Contents of `r.errs` (the `syncErrorSlice`), in append order. -/
  errs : List (Option GoError)
  /-- `context.Cause(r.ctx)`: `none` while `r.ctx` is not done. -/
  cause : Option GoError
  /-- Whether `r.failCanceler.once` has been consumed. -/
  onceUsed : Bool
  /-- Whether `r.failCanceler.cancel` is non-nil (`WithCancelOnFailure`). -/
  cancelOnFailure : Bool
  /-- `cap(r.sem)`; `0` when no semaphore channel was created. -/
  limit : Nat
  /-- `len(r.sem)`: number of semaphore slots currently held. -/
  semCount : Nat
deriving DecidableEq, Repr

/-- `Runner.hasLimit`: `cap(r.sem) > 0`. -/
def RunnerState.hasLimit (s : RunnerState) : Bool :=
  decide (0 < s.limit)

/-- `Runner.maybeSemInc`: acquire a semaphore slot if a limit was set
(the enabling condition `semCount < limit` lives in the `Step` relation,
since a full channel blocks the sender). -/
def maybeSemInc (s : RunnerState) : RunnerState :=
  { s with semCount := if s.hasLimit then s.semCount + 1 else s.semCount }

/-- `Runner.maybeSemDec`: release a semaphore slot if a limit was set. -/
def maybeSemDec (s : RunnerState) : RunnerState :=
  { s with semCount := if s.hasLimit then s.semCount - 1 else s.semCount }

/-- `cancelOnFailure.ShouldCancel`: the cancel function is non-nil. -/
def shouldCancel (s : RunnerState) : Bool :=
  s.cancelOnFailure

/-- `cancelOnFailure.Cancel`: run the underlying `context.CancelCauseFunc`
through the `sync.Once`.  The cancel function marks the derived context
done with cause `err`, unless the context is already done, in which case
the existing cause is kept (the semantics of `context.WithCancelCause`). -/
def cancelOnFailureCancel (s : RunnerState) (err : GoError) : RunnerState :=
  if s.onceUsed then s
  else { s with onceUsed := true, cause := some (s.cause.getD err) }

/-- The `options` struct of the runner package. -/
structure RunnerOptions where
  CancelOnFailure : Bool
  Limit : Nat

/-- `WithCancelOnFailure` option. -/
def WithCancelOnFailure : RunnerOptions → RunnerOptions :=
  fun o => { o with CancelOnFailure := true }

/-- `WithLimit` option. -/
def WithLimit (limit : Nat) : RunnerOptions → RunnerOptions :=
  fun o => { o with Limit := limit }

/-- `New` from runner.go, paired with the list of tasks the caller will
submit (`pending` models the caller's future `Go` calls, in order).
`parentCause` is `context.Cause` of the provided parent context (`none`
when the parent is not done).  The option fold mirrors `for _, opt := range
opts { opt(&ro) }`; the semaphore is created with capacity `ro.Limit` only
when `ro.Limit > 0` (a nil channel has capacity 0, so `limit := ro.Limit`
in both cases).  When `CancelOnFailure` is set, `r.ctx` becomes a derived
cancellable context: its cause starts out as the parent's cause. -/
def RunnerNew (parentCause : Option GoError) (opts : List (RunnerOptions → RunnerOptions))
    (tasks : List (Option GoError)) : RunnerState :=
  let ro := opts.foldl (fun o opt => opt o) ⟨false, 0⟩
  { pending := tasks
    spawned := []
    runningBody := []
    toAppend := []
    toCancel := []
    executed := []
    skipped := 0
    errs := []
    cause := parentCause
    onceUsed := false
    cancelOnFailure := ro.CancelOnFailure
    limit := ro.Limit
    semCount := 0 }

/-- One atomic critical section of the runner system. -/
inductive Step : RunnerState → RunnerState → Prop where
  /-- The caller invokes `Runner.Go` with the next task: `maybeSemInc`
  (enabled only if no limit is set or a slot is free, since `r.sem <-
  struct{}{}` blocks on a full channel), `wg.Add(1)`, and the goroutine is
  spawned. -/
  | submit (s : RunnerState) (t : Option GoError) (rest : List (Option GoError))
      (hp : s.pending = t :: rest)
      (hsem : s.hasLimit = false ∨ s.semCount < s.limit) :
      Step s (maybeSemInc { s with pending := rest, spawned := s.spawned ++ [t] })
  /-- A spawned goroutine reaches the `r.ctx.Err() != nil` check while the
  context is not done, and enters its body `f()`. -/
  | beginRun (s : RunnerState) (t : Option GoError) (l1 l2 : List (Option GoError))
      (hs : s.spawned = l1 ++ t :: l2)
      (hc : s.cause = none) :
      Step s { s with spawned := l1 ++ l2, runningBody := s.runningBody ++ [t] }
  /-- A spawned goroutine reaches the context check while the context is
  done: the body is not invoked, `result = causeForTaskSkip(r.ctx)` is
  computed (always non-nil), and the goroutine enters its deferred block
  with that result still to be appended. -/
  | beginSkip (s : RunnerState) (t : Option GoError) (l1 l2 : List (Option GoError))
      (c : GoError)
      (hs : s.spawned = l1 ++ t :: l2)
      (hc : s.cause = some c) :
      Step s { s with
               spawned := l1 ++ l2
               skipped := s.skipped + 1
               toAppend := s.toAppend ++ [causeForTaskSkip s.cause] }
  /-- A goroutine finishes its body with `result = nil`: the deferred block
  appends nothing, does not cancel, and runs `wg.Done` and `maybeSemDec`. -/
  | finishNil (s : RunnerState) (l1 l2 : List (Option GoError))
      (hr : s.runningBody = l1 ++ none :: l2) :
      Step s (maybeSemDec { s with
        runningBody := l1 ++ l2
        executed := s.executed ++ [none] })
  /-- A goroutine finishes its body with a non-nil `result = some e`: it
  enters the deferred block with `e` still to be appended. -/
  | finishErr (s : RunnerState) (e : GoError) (l1 l2 : List (Option GoError))
      (hr : s.runningBody = l1 ++ some e :: l2) :
      Step s { s with
               runningBody := l1 ++ l2
               executed := s.executed ++ [some e]
               toAppend := s.toAppend ++ [e] }
  /-- `r.errs.Append(result)` under the slice mutex, when
  `r.failCanceler.ShouldCancel()` holds: the goroutine still has to call
  `Cancel(result)` before it releases its slot. -/
  | doAppendCof (s : RunnerState) (e : GoError) (l1 l2 : List GoError)
      (ha : s.toAppend = l1 ++ e :: l2)
      (hsc : shouldCancel s = true) :
      Step s { s with
               toAppend := l1 ++ l2
               errs := s.errs ++ [some e]
               toCancel := s.toCancel ++ [e] }
  /-- `r.errs.Append(result)` under the slice mutex, when cancellation on
  failure is not configured: the deferred block then runs `wg.Done` and
  `maybeSemDec`. -/
  | doAppendNoCof (s : RunnerState) (e : GoError) (l1 l2 : List GoError)
      (ha : s.toAppend = l1 ++ e :: l2)
      (hsc : shouldCancel s = false) :
      Step s (maybeSemDec { s with toAppend := l1 ++ l2, errs := s.errs ++ [some e] })
  /-- `r.failCanceler.Cancel(result)` under the `sync.Once` (a separate
  critical section from the append), followed by `wg.Done` and
  `maybeSemDec`. -/
  | doCancel (s : RunnerState) (e : GoError) (l1 l2 : List GoError)
      (hc : s.toCancel = l1 ++ e :: l2) :
      Step s (maybeSemDec (cancelOnFailureCancel { s with toCancel := l1 ++ l2 } e))

/-- Executions of the runner system: reflexive-transitive closure of
`Step`. -/
def Reachable : RunnerState → RunnerState → Prop :=
  Relation.ReflTransGen Step

/-- A state in which `Runner.Wait` has been called after all `Go` calls
and has returned: no task is pending, spawned, running, or still inside
its deferred block (each goroutine calls `wg.Done` only at the end of its
deferred block), so `wg.Wait()` does not block. -/
def RunnerState.terminal (s : RunnerState) : Prop :=
  s.pending = [] ∧ s.spawned = [] ∧ s.runningBody = [] ∧
    s.toAppend = [] ∧ s.toCancel = []

/-- `Runner.Wait`: returns a clone of the accumulated error slice. -/
def Wait (s : RunnerState) : List (Option GoError) :=
  s.errs

/-!
### A deterministic sequential scheduler

When the caller alternates `Go` and `Wait` (as the cancel-on-failure tests
of the repository do), each task is admitted, run or skipped, appended and
cancelled, and released before the next is submitted.  `seqRun` computes
the resulting execution; `steps_seqRun` shows it is an execution of the
`Step` semantics.
-/

/-- The state after `Runner.Go` admits and spawns the next pending task. -/
def submitFirst (s : RunnerState) (t : Option GoError) (rest : List (Option GoError)) :
    RunnerState :=
  maybeSemInc { s with pending := rest, spawned := s.spawned ++ [t] }

/-- The state after the only spawned goroutine passes the context check. -/
def beginFirst (s : RunnerState) (t : Option GoError) : RunnerState :=
  { s with spawned := [], runningBody := s.runningBody ++ [t] }

/-- The state after the only running goroutine finishes with a nil result
and runs its whole deferred block. -/
def finishNilFirst (s : RunnerState) : RunnerState :=
  maybeSemDec { s with runningBody := [], executed := s.executed ++ [none] }

/-- The state after the only running goroutine finishes with result `e`. -/
def finishErrFirst (s : RunnerState) (e : GoError) : RunnerState :=
  { s with
    runningBody := []
    executed := s.executed ++ [some e]
    toAppend := s.toAppend ++ [e] }

/-- The state after the only spawned goroutine skips on the done context. -/
def skipEnter (s : RunnerState) : RunnerState :=
  { s with
    spawned := []
    skipped := s.skipped + 1
    toAppend := s.toAppend ++ [causeForTaskSkip s.cause] }

/-- The state after the only deferring goroutine appends `e`, with
cancellation on failure configured. -/
def appendFirstCof (s : RunnerState) (e : GoError) : RunnerState :=
  { s with toAppend := [], errs := s.errs ++ [some e], toCancel := s.toCancel ++ [e] }

/-- The state after the only deferring goroutine appends `e` and releases,
with cancellation on failure not configured. -/
def appendFirstNoCof (s : RunnerState) (e : GoError) : RunnerState :=
  maybeSemDec { s with toAppend := [], errs := s.errs ++ [some e] }

/-- The state after the only cancelling goroutine runs `Cancel(e)` and
releases. -/
def cancelFirst (s : RunnerState) (e : GoError) : RunnerState :=
  maybeSemDec (cancelOnFailureCancel { s with toCancel := [] } e)

/-- Run the next pending task to completion of its whole deferred block:
submit it, then run its body or skip it, then append and cancel as the
configuration dictates. -/
def seqRunOne (s : RunnerState) : RunnerState :=
  match s.pending with
  | [] => s
  | t :: rest =>
    let s1 := submitFirst s t rest
    match s1.cause with
    | none =>
      match t with
      | none => finishNilFirst (beginFirst s1 none)
      | some e =>
        let s3 := finishErrFirst (beginFirst s1 (some e)) e
        if shouldCancel s3 then cancelFirst (appendFirstCof s3 e) e
        else appendFirstNoCof s3 e
    | some _ =>
      let s2 := skipEnter s1
      let c := causeForTaskSkip s1.cause
      if shouldCancel s2 then cancelFirst (appendFirstCof s2 c) c
      else appendFirstNoCof s2 c

/-- Iterate `seqRunOne`. -/
def seqRunN : Nat → RunnerState → RunnerState
  | 0, s => s
  | n + 1, s => seqRunN n (seqRunOne s)

/-- Run every pending task sequentially (each `Go` followed by a `Wait`
before the next `Go`). -/
def seqRun (s : RunnerState) : RunnerState :=
  seqRunN s.pending.length s

/-!
### Basic lemmas about the embedded operations
-/

@[simp] theorem maybeSemInc_pending (s : RunnerState) : (maybeSemInc s).pending = s.pending := rfl
@[simp] theorem maybeSemInc_spawned (s : RunnerState) : (maybeSemInc s).spawned = s.spawned := rfl
@[simp] theorem maybeSemInc_runningBody (s : RunnerState) :
    (maybeSemInc s).runningBody = s.runningBody := rfl
@[simp] theorem maybeSemInc_toAppend (s : RunnerState) :
    (maybeSemInc s).toAppend = s.toAppend := rfl
@[simp] theorem maybeSemInc_toCancel (s : RunnerState) :
    (maybeSemInc s).toCancel = s.toCancel := rfl
@[simp] theorem maybeSemInc_executed (s : RunnerState) :
    (maybeSemInc s).executed = s.executed := rfl
@[simp] theorem maybeSemInc_skipped (s : RunnerState) : (maybeSemInc s).skipped = s.skipped := rfl
@[simp] theorem maybeSemInc_errs (s : RunnerState) : (maybeSemInc s).errs = s.errs := rfl
@[simp] theorem maybeSemInc_cause (s : RunnerState) : (maybeSemInc s).cause = s.cause := rfl
@[simp] theorem maybeSemInc_onceUsed (s : RunnerState) :
    (maybeSemInc s).onceUsed = s.onceUsed := rfl
@[simp] theorem maybeSemInc_cancelOnFailure (s : RunnerState) :
    (maybeSemInc s).cancelOnFailure = s.cancelOnFailure := rfl
@[simp] theorem maybeSemInc_limit (s : RunnerState) : (maybeSemInc s).limit = s.limit := rfl

@[simp] theorem maybeSemDec_pending (s : RunnerState) : (maybeSemDec s).pending = s.pending := rfl
@[simp] theorem maybeSemDec_spawned (s : RunnerState) : (maybeSemDec s).spawned = s.spawned := rfl
@[simp] theorem maybeSemDec_runningBody (s : RunnerState) :
    (maybeSemDec s).runningBody = s.runningBody := rfl
@[simp] theorem maybeSemDec_toAppend (s : RunnerState) :
    (maybeSemDec s).toAppend = s.toAppend := rfl
@[simp] theorem maybeSemDec_toCancel (s : RunnerState) :
    (maybeSemDec s).toCancel = s.toCancel := rfl
@[simp] theorem maybeSemDec_executed (s : RunnerState) :
    (maybeSemDec s).executed = s.executed := rfl
@[simp] theorem maybeSemDec_skipped (s : RunnerState) : (maybeSemDec s).skipped = s.skipped := rfl
@[simp] theorem maybeSemDec_errs (s : RunnerState) : (maybeSemDec s).errs = s.errs := rfl
@[simp] theorem maybeSemDec_cause (s : RunnerState) : (maybeSemDec s).cause = s.cause := rfl
@[simp] theorem maybeSemDec_onceUsed (s : RunnerState) :
    (maybeSemDec s).onceUsed = s.onceUsed := rfl
@[simp] theorem maybeSemDec_cancelOnFailure (s : RunnerState) :
    (maybeSemDec s).cancelOnFailure = s.cancelOnFailure := rfl
@[simp] theorem maybeSemDec_limit (s : RunnerState) : (maybeSemDec s).limit = s.limit := rfl

@[simp] theorem cancelOnFailureCancel_pending (s : RunnerState) (e : GoError) :
    (cancelOnFailureCancel s e).pending = s.pending := by
  unfold cancelOnFailureCancel; split <;> rfl
@[simp] theorem cancelOnFailureCancel_spawned (s : RunnerState) (e : GoError) :
    (cancelOnFailureCancel s e).spawned = s.spawned := by
  unfold cancelOnFailureCancel; split <;> rfl
@[simp] theorem cancelOnFailureCancel_runningBody (s : RunnerState) (e : GoError) :
    (cancelOnFailureCancel s e).runningBody = s.runningBody := by
  unfold cancelOnFailureCancel; split <;> rfl
@[simp] theorem cancelOnFailureCancel_toAppend (s : RunnerState) (e : GoError) :
    (cancelOnFailureCancel s e).toAppend = s.toAppend := by
  unfold cancelOnFailureCancel; split <;> rfl
@[simp] theorem cancelOnFailureCancel_toCancel (s : RunnerState) (e : GoError) :
    (cancelOnFailureCancel s e).toCancel = s.toCancel := by
  unfold cancelOnFailureCancel; split <;> rfl
@[simp] theorem cancelOnFailureCancel_executed (s : RunnerState) (e : GoError) :
    (cancelOnFailureCancel s e).executed = s.executed := by
  unfold cancelOnFailureCancel; split <;> rfl
@[simp] theorem cancelOnFailureCancel_skipped (s : RunnerState) (e : GoError) :
    (cancelOnFailureCancel s e).skipped = s.skipped := by
  unfold cancelOnFailureCancel; split <;> rfl
@[simp] theorem cancelOnFailureCancel_errs (s : RunnerState) (e : GoError) :
    (cancelOnFailureCancel s e).errs = s.errs := by
  unfold cancelOnFailureCancel; split <;> rfl
@[simp] theorem cancelOnFailureCancel_cancelOnFailure (s : RunnerState) (e : GoError) :
    (cancelOnFailureCancel s e).cancelOnFailure = s.cancelOnFailure := by
  unfold cancelOnFailureCancel; split <;> rfl
@[simp] theorem cancelOnFailureCancel_limit (s : RunnerState) (e : GoError) :
    (cancelOnFailureCancel s e).limit = s.limit := by
  unfold cancelOnFailureCancel; split <;> rfl
@[simp] theorem cancelOnFailureCancel_semCount (s : RunnerState) (e : GoError) :
    (cancelOnFailureCancel s e).semCount = s.semCount := by
  unfold cancelOnFailureCancel; split <;> rfl

theorem cancelOnFailureCancel_of_onceUsed (s : RunnerState) (e : GoError)
    (h : s.onceUsed = true) : cancelOnFailureCancel s e = s := by
  simp [cancelOnFailureCancel, h]

theorem cancelOnFailureCancel_cause_of_some (s : RunnerState) (e : GoError) (c : GoError)
    (h : s.cause = some c) : (cancelOnFailureCancel s e).cause = some c := by
  unfold cancelOnFailureCancel; split
  · exact h
  · simp [h]

theorem cancelOnFailureCancel_onceUsed_true (s : RunnerState) (e : GoError) :
    (cancelOnFailureCancel s e).onceUsed = true ∨ cancelOnFailureCancel s e = s := by
  unfold cancelOnFailureCancel; split
  · exact Or.inr rfl
  · exact Or.inl rfl

/-!
### Preservation lemmas along steps
-/

theorem step_limit_eq {s s' : RunnerState} (h : Step s s') : s'.limit = s.limit := by
  cases h <;> simp

theorem step_cof_eq {s s' : RunnerState} (h : Step s s') :
    s'.cancelOnFailure = s.cancelOnFailure := by
  cases h <;> simp

theorem reach_limit_eq {s s' : RunnerState} (h : Reachable s s') : s'.limit = s.limit := by
  induction h with
  | refl => rfl
  | tail _ hstep ih => rw [step_limit_eq hstep, ih]

theorem reach_cof_eq {s s' : RunnerState} (h : Reachable s s') :
    s'.cancelOnFailure = s.cancelOnFailure := by
  induction h with
  | refl => rfl
  | tail _ hstep ih => rw [step_cof_eq hstep, ih]

/-- Once the context of the runner is done, its cause never changes. -/
theorem step_cause_mono {s s' : RunnerState} (h : Step s s') (c : GoError)
    (hc : s.cause = some c) : s'.cause = some c := by
  cases h with
  | submit t rest hp hsem => simpa using hc
  | beginRun t l1 l2 hs hcn => simpa using hc
  | beginSkip t l1 l2 c0 hs hcn => simpa using hc
  | finishNil l1 l2 hr => simpa using hc
  | finishErr e l1 l2 hr => simpa using hc
  | doAppendCof e l1 l2 ha hsc => simpa using hc
  | doAppendNoCof e l1 l2 ha hsc => simpa using hc
  | doCancel e l1 l2 hcl =>
    simp only [maybeSemDec_cause]
    exact cancelOnFailureCancel_cause_of_some _ _ _ hc

theorem reach_cause_mono {s s' : RunnerState} (h : Reachable s s') (c : GoError)
    (hc : s.cause = some c) : s'.cause = some c := by
  induction h with
  | refl => exact hc
  | tail _ hstep ih => exact step_cause_mono hstep c ih

/-- Transfer of an inductive invariant along any execution. -/
theorem Reachable.invariant {P : RunnerState → Prop}
    (hP : ∀ s s', Step s s' → P s → P s') {s s' : RunnerState}
    (h : Reachable s s') (h0 : P s) : P s' := by
  induction h with
  | refl => exact h0
  | tail _ hstep ih => exact hP _ _ hstep ih

/-!
### Soundness of the sequential scheduler
-/

theorem seqRunOne_spec (s : RunnerState) (hsp : s.spawned = []) (hrb : s.runningBody = [])
    (hta : s.toAppend = []) (htc : s.toCancel = [])
    (hsem : s.hasLimit = false ∨ s.semCount = 0) :
    Reachable s (seqRunOne s) ∧ (seqRunOne s).spawned = [] ∧ (seqRunOne s).runningBody = []
      ∧ (seqRunOne s).toAppend = [] ∧ (seqRunOne s).toCancel = []
      ∧ (seqRunOne s).semCount = s.semCount ∧ (seqRunOne s).limit = s.limit
      ∧ (seqRunOne s).pending = s.pending.tail := by
  cases hp : s.pending with
  | nil =>
    have hone : seqRunOne s = s := by unfold seqRunOne; rw [hp]
    rw [hone, hp]
    exact ⟨Relation.ReflTransGen.refl, hsp, hrb, hta, htc, rfl, rfl, rfl⟩
  | cons t rest =>
    have hguard : s.hasLimit = false ∨ s.semCount < s.limit := by
      rcases hsem with h | h
      · exact Or.inl h
      · cases hb : s.hasLimit with
        | false => exact Or.inl rfl
        | true =>
          right
          have hl : 0 < s.limit := by simpa [RunnerState.hasLimit] using hb
          omega
    have st1 : Step s (submitFirst s t rest) := Step.submit s t rest hp hguard
    have hs1sp : (submitFirst s t rest).spawned = [t] := by simp [submitFirst, hsp]
    have hs1rb : (submitFirst s t rest).runningBody = [] := by simp [submitFirst, hrb]
    have hs1ta : (submitFirst s t rest).toAppend = [] := by simp [submitFirst, hta]
    have hs1tc : (submitFirst s t rest).toCancel = [] := by simp [submitFirst, htc]
    have hsemc : ∀ u : RunnerState, u.limit = s.limit →
        u.semCount = (if 0 < s.limit then s.semCount + 1 else s.semCount) →
        (maybeSemDec u).semCount = s.semCount := by
      intro u hul husc
      simp only [maybeSemDec, RunnerState.hasLimit, hul, husc]
      by_cases hb : 0 < s.limit <;> simp [hb]
    cases hc : (submitFirst s t rest).cause with
    | none =>
      cases t with
      | none =>
        have st2 : Step (submitFirst s none rest)
            (beginFirst (submitFirst s none rest) none) := by
          have h := Step.beginRun (submitFirst s none rest) none [] []
            (by simpa using hs1sp) hc
          simpa [beginFirst] using h
        have st3 : Step (beginFirst (submitFirst s none rest) none)
            (finishNilFirst (beginFirst (submitFirst s none rest) none)) := by
          have h := Step.finishNil (beginFirst (submitFirst s none rest) none) [] []
            (by simp [beginFirst, hs1rb])
          simpa [finishNilFirst] using h
        have hone : seqRunOne s
            = finishNilFirst (beginFirst (submitFirst s none rest) none) := by
          unfold seqRunOne
          rw [hp]
          simp only [hc]
        rw [hone]
        refine ⟨((Relation.ReflTransGen.single st1).tail st2).tail st3,
          ?_, ?_, ?_, ?_, ?_, ?_, ?_⟩
        · simp [finishNilFirst, beginFirst]
        · simp [finishNilFirst, beginFirst]
        · simp [finishNilFirst, beginFirst, hs1ta]
        · simp [finishNilFirst, beginFirst, hs1tc]
        · refine hsemc _ rfl ?_
          simp [beginFirst, submitFirst, maybeSemInc, RunnerState.hasLimit]
        · rfl
        · rfl
      | some e =>
        have st2 : Step (submitFirst s (some e) rest)
            (beginFirst (submitFirst s (some e) rest) (some e)) := by
          have h := Step.beginRun (submitFirst s (some e) rest) (some e) [] []
            (by simpa using hs1sp) hc
          simpa [beginFirst] using h
        have st3 : Step (beginFirst (submitFirst s (some e) rest) (some e))
            (finishErrFirst (beginFirst (submitFirst s (some e) rest) (some e)) e) := by
          have h := Step.finishErr (beginFirst (submitFirst s (some e) rest) (some e))
            e [] [] (by simp [beginFirst, hs1rb])
          simpa [finishErrFirst] using h
        have hs3ta : (finishErrFirst (beginFirst (submitFirst s (some e) rest) (some e))
            e).toAppend = [e] := by
          simp [finishErrFirst, beginFirst, hs1ta]
        have hs3tc : (finishErrFirst (beginFirst (submitFirst s (some e) rest) (some e))
            e).toCancel = [] := by
          simp [finishErrFirst, beginFirst, hs1tc]
        cases hsc : shouldCancel
            (finishErrFirst (beginFirst (submitFirst s (some e) rest) (some e)) e) with
        | false =>
          have st4 : Step
              (finishErrFirst (beginFirst (submitFirst s (some e) rest) (some e)) e)
              (appendFirstNoCof
                (finishErrFirst (beginFirst (submitFirst s (some e) rest) (some e)) e) e) := by
            have h := Step.doAppendNoCof
              (finishErrFirst (beginFirst (submitFirst s (some e) rest) (some e)) e)
              e [] [] (by simpa using hs3ta) hsc
            simpa [appendFirstNoCof] using h
          have hone : seqRunOne s = appendFirstNoCof
              (finishErrFirst (beginFirst (submitFirst s (some e) rest) (some e)) e) e := by
            unfold seqRunOne
            rw [hp]
            simp only [hc, hsc, Bool.false_eq_true, if_false]
          rw [hone]
          refine ⟨(((Relation.ReflTransGen.single st1).tail st2).tail st3).tail st4,
            ?_, ?_, ?_, ?_, ?_, ?_, ?_⟩
          · simp [appendFirstNoCof, finishErrFirst, beginFirst]
          · simp [appendFirstNoCof, finishErrFirst, beginFirst]
          · simp [appendFirstNoCof]
          · simp [appendFirstNoCof, hs3tc]
          · refine hsemc _ rfl ?_
            simp [appendFirstNoCof, finishErrFirst, beginFirst, submitFirst,
              maybeSemInc, RunnerState.hasLimit]
          · rfl
          · rfl
        | true =>
          have st4 : Step
              (finishErrFirst (beginFirst (submitFirst s (some e) rest) (some e)) e)
              (appendFirstCof
                (finishErrFirst (beginFirst (submitFirst s (some e) rest) (some e)) e) e) := by
            have h := Step.doAppendCof
              (finishErrFirst (beginFirst (submitFirst s (some e) rest) (some e)) e)
              e [] [] (by simpa using hs3ta) hsc
            simpa [appendFirstCof] using h
          have hs4tc : (appendFirstCof
              (finishErrFirst (beginFirst (submitFirst s (some e) rest) (some e)) e)
              e).toCancel = [e] := by
            simp [appendFirstCof, hs3tc]
          have st5 : Step
              (appendFirstCof
                (finishErrFirst (beginFirst (submitFirst s (some e) rest) (some e)) e) e)
              (cancelFirst
                (appendFirstCof
                  (finishErrFirst (beginFirst (submitFirst s (some e) rest) (some e)) e) e)
                e) := by
            have h := Step.doCancel
              (appendFirstCof
                (finishErrFirst (beginFirst (submitFirst s (some e) rest) (some e)) e) e)
              e [] [] (by simpa using hs4tc)
            simpa [cancelFirst] using h
          have hone : seqRunOne s = cancelFirst
              (appendFirstCof
                (finishErrFirst (beginFirst (submitFirst s (some e) rest) (some e)) e) e)
              e := by
            unfold seqRunOne
            rw [hp]
            simp only [hc, hsc, if_true]
          rw [hone]
          refine ⟨((((Relation.ReflTransGen.single st1).tail st2).tail st3).tail st4).tail st5,
            ?_, ?_, ?_, ?_, ?_, ?_, ?_⟩
          · simp [cancelFirst, appendFirstCof, finishErrFirst, beginFirst]
          · simp [cancelFirst, appendFirstCof, finishErrFirst, beginFirst]
          · simp [cancelFirst, appendFirstCof]
          · simp [cancelFirst]
          · refine hsemc _
              (by simp [cancelFirst, appendFirstCof, finishErrFirst, beginFirst,
                submitFirst]) ?_
            simp [cancelFirst, appendFirstCof, finishErrFirst, beginFirst, submitFirst,
              maybeSemInc, RunnerState.hasLimit]
          · simp [cancelFirst, appendFirstCof, finishErrFirst, beginFirst, submitFirst]
          · simp [cancelFirst, appendFirstCof, finishErrFirst, beginFirst, submitFirst]
    | some c =>
      have st2 : Step (submitFirst s t rest) (skipEnter (submitFirst s t rest)) := by
        have h := Step.beginSkip (submitFirst s t rest) t [] [] c
          (by simpa using hs1sp) hc
        simpa [skipEnter] using h
      have hs2ta : (skipEnter (submitFirst s t rest)).toAppend
          = [causeForTaskSkip (submitFirst s t rest).cause] := by
        simp [skipEnter, hs1ta]
      have hs2tc : (skipEnter (submitFirst s t rest)).toCancel = [] := by
        simp [skipEnter, hs1tc]
      cases hsc : shouldCancel (skipEnter (submitFirst s t rest)) with
      | false =>
        have st3 : Step (skipEnter (submitFirst s t rest))
            (appendFirstNoCof (skipEnter (submitFirst s t rest))
              (causeForTaskSkip (submitFirst s t rest).cause)) := by
          have h := Step.doAppendNoCof (skipEnter (submitFirst s t rest))
            (causeForTaskSkip (submitFirst s t rest).cause) [] []
            (by simpa using hs2ta) hsc
          simpa [appendFirstNoCof] using h
        have hone : seqRunOne s = appendFirstNoCof (skipEnter (submitFirst s t rest))
            (causeForTaskSkip (submitFirst s t rest).cause) := by
          unfold seqRunOne
          rw [hp]
          simp only [hc, hsc, Bool.false_eq_true, if_false]
        rw [hone]
        refine ⟨((Relation.ReflTransGen.single st1).tail st2).tail st3,
          ?_, ?_, ?_, ?_, ?_, ?_, ?_⟩
        · simp [appendFirstNoCof, skipEnter]
        · simp [appendFirstNoCof, skipEnter, hs1rb]
        · simp [appendFirstNoCof]
        · simp [appendFirstNoCof, hs2tc]
        · refine hsemc _ rfl ?_
          simp [appendFirstNoCof, skipEnter, submitFirst, maybeSemInc,
            RunnerState.hasLimit]
        · rfl
        · rfl
      | true =>
        have st3 : Step (skipEnter (submitFirst s t rest))
            (appendFirstCof (skipEnter (submitFirst s t rest))
              (causeForTaskSkip (submitFirst s t rest).cause)) := by
          have h := Step.doAppendCof (skipEnter (submitFirst s t rest))
            (causeForTaskSkip (submitFirst s t rest).cause) [] []
            (by simpa using hs2ta) hsc
          simpa [appendFirstCof] using h
        have hs3tc : (appendFirstCof (skipEnter (submitFirst s t rest))
            (causeForTaskSkip (submitFirst s t rest).cause)).toCancel
            = [causeForTaskSkip (submitFirst s t rest).cause] := by
          simp [appendFirstCof, hs2tc]
        have st4 : Step
            (appendFirstCof (skipEnter (submitFirst s t rest))
              (causeForTaskSkip (submitFirst s t rest).cause))
            (cancelFirst
              (appendFirstCof (skipEnter (submitFirst s t rest))
                (causeForTaskSkip (submitFirst s t rest).cause))
              (causeForTaskSkip (submitFirst s t rest).cause)) := by
          have h := Step.doCancel
            (appendFirstCof (skipEnter (submitFirst s t rest))
              (causeForTaskSkip (submitFirst s t rest).cause))
            (causeForTaskSkip (submitFirst s t rest).cause) [] []
            (by simpa using hs3tc)
          simpa [cancelFirst] using h
        have hone : seqRunOne s = cancelFirst
            (appendFirstCof (skipEnter (submitFirst s t rest))
              (causeForTaskSkip (submitFirst s t rest).cause))
            (causeForTaskSkip (submitFirst s t rest).cause) := by
          unfold seqRunOne
          rw [hp]
          simp only [hc, hsc, if_true]
        rw [hone]
        refine ⟨(((Relation.ReflTransGen.single st1).tail st2).tail st3).tail st4,
          ?_, ?_, ?_, ?_, ?_, ?_, ?_⟩
        · simp [cancelFirst, appendFirstCof, skipEnter]
        · simp [cancelFirst, appendFirstCof, skipEnter, hs1rb]
        · simp [cancelFirst, appendFirstCof]
        · simp [cancelFirst]
        · refine hsemc _
            (by simp [cancelFirst, appendFirstCof, skipEnter, submitFirst]) ?_
          simp [cancelFirst, appendFirstCof, skipEnter, submitFirst, maybeSemInc,
            RunnerState.hasLimit]
        · simp [cancelFirst, appendFirstCof, skipEnter, submitFirst]
        · simp [cancelFirst, appendFirstCof, skipEnter, submitFirst]

theorem seqRunN_spec (n : Nat) (s : RunnerState) (hsp : s.spawned = [])
    (hrb : s.runningBody = []) (hta : s.toAppend = []) (htc : s.toCancel = [])
    (hsem : s.hasLimit = false ∨ s.semCount = 0) :
    Reachable s (seqRunN n s) ∧ (seqRunN n s).spawned = [] ∧ (seqRunN n s).runningBody = []
      ∧ (seqRunN n s).toAppend = [] ∧ (seqRunN n s).toCancel = []
      ∧ (seqRunN n s).pending = s.pending.drop n := by
  induction n generalizing s with
  | zero => exact ⟨Relation.ReflTransGen.refl, hsp, hrb, hta, htc, rfl⟩
  | succ n ih =>
    obtain ⟨h1, h2, h3, h4, h5, h6, h7, h8⟩ := seqRunOne_spec s hsp hrb hta htc hsem
    have hsem1 : (seqRunOne s).hasLimit = false ∨ (seqRunOne s).semCount = 0 := by
      rcases hsem with h | h
      · left; simp [RunnerState.hasLimit] at h ⊢; omega
      · right; rw [h6, h]
    obtain ⟨g1, g2, g3, g4, g5, g6⟩ := ih (seqRunOne s) h2 h3 h4 h5 hsem1
    simp only [seqRunN]
    refine ⟨h1.trans g1, g2, g3, g4, g5, ?_⟩
    rw [g6, h8]
    cases s.pending <;> simp

/-- Running every pending task sequentially is an execution of the `Step`
semantics, and it ends in a terminal state (all `Go` calls done, all
deferred blocks finished, `Wait` unblocked). -/
theorem steps_seqRun (s : RunnerState) (hsp : s.spawned = []) (hrb : s.runningBody = [])
    (hta : s.toAppend = []) (htc : s.toCancel = [])
    (hsem : s.hasLimit = false ∨ s.semCount = 0) :
    Reachable s (seqRun s) ∧ (seqRun s).terminal := by
  obtain ⟨h1, h2, h3, h4, h5, h6⟩ :=
    seqRunN_spec s.pending.length s hsp hrb hta htc hsem
  exact ⟨h1, by rw [List.drop_length] at h6; exact h6, h2, h3, h4, h5⟩

/-- The sequential execution starting from a freshly constructed runner. -/
theorem steps_seqRun_new (pc : Option GoError) (opts : List (RunnerOptions → RunnerOptions))
    (tasks : List (Option GoError)) :
    Reachable (RunnerNew pc opts tasks) (seqRun (RunnerNew pc opts tasks))
      ∧ (seqRun (RunnerNew pc opts tasks)).terminal :=
  steps_seqRun _ rfl rfl rfl rfl (Or.inr rfl)

/-!
### Only non-nil errors are ever collected
-/

theorem errs_isSome_invariant {s s' : RunnerState} (h : Reachable s s')
    (hinv : ∀ e ∈ s.errs, e.isSome = true) : ∀ e ∈ s'.errs, e.isSome = true := by
  refine h.invariant (P := fun u => ∀ e ∈ u.errs, e.isSome = true) ?_ hinv
  rintro s1 s2 hstep hind
  cases hstep with
  | submit t rest hp hsem => simpa using hind
  | beginRun t l1 l2 hs hcn => simpa using hind
  | beginSkip t l1 l2 c hs hcn => simpa using hind
  | finishNil l1 l2 hr => simpa using hind
  | finishErr e l1 l2 hr => simpa using hind
  | doAppendCof e l1 l2 ha hsc =>
    intro x hx
    simp only [List.mem_append, List.mem_singleton] at hx
    rcases hx with hx | hx
    · exact hind x hx
    · rw [hx]; rfl
  | doAppendNoCof e l1 l2 ha hsc =>
    intro x hx
    simp only [maybeSemDec_errs, List.mem_append, List.mem_singleton] at hx
    rcases hx with hx | hx
    · exact hind x hx
    · rw [hx]; rfl
  | doCancel e l1 l2 hcl =>
    intro x hx
    simp only [maybeSemDec_errs, cancelOnFailureCancel_errs] at hx
    exact hind x hx

/-!
### The runner without cancel-on-failure and with a live parent context

When `WithCancelOnFailure` is absent and the parent context is not done,
the context check never fires, every submitted task runs its body, and the
error slice accumulates exactly the non-nil task results (each failing
goroutine passes through `toAppend` before its error lands in the slice).
-/

theorem noCancel_invariant (tasks : List (Option GoError)) {s s' : RunnerState}
    (h : Reachable s s')
    (hinv : s.cause = none ∧ s.cancelOnFailure = false ∧ s.toCancel = [] ∧
      (∀ a, @List.count _ instBEqOfDecidableEq a s.executed
          + @List.count _ instBEqOfDecidableEq a s.pending
          + @List.count _ instBEqOfDecidableEq a s.spawned
          + @List.count _ instBEqOfDecidableEq a s.runningBody
          = @List.count _ instBEqOfDecidableEq a tasks) ∧
      (∀ g : GoError, @List.count _ instBEqOfDecidableEq (some g) s.errs
          + @List.count _ instBEqOfDecidableEq g s.toAppend
          = @List.count _ instBEqOfDecidableEq (some g) (s.executed.filter Option.isSome))) :
    s'.cause = none ∧ s'.cancelOnFailure = false ∧ s'.toCancel = [] ∧
      (∀ a, @List.count _ instBEqOfDecidableEq a s'.executed
          + @List.count _ instBEqOfDecidableEq a s'.pending
          + @List.count _ instBEqOfDecidableEq a s'.spawned
          + @List.count _ instBEqOfDecidableEq a s'.runningBody
          = @List.count _ instBEqOfDecidableEq a tasks) ∧
      (∀ g : GoError, @List.count _ instBEqOfDecidableEq (some g) s'.errs
          + @List.count _ instBEqOfDecidableEq g s'.toAppend
          = @List.count _ instBEqOfDecidableEq (some g) (s'.executed.filter Option.isSome)) := by
  refine h.invariant
    (P := fun u => u.cause = none ∧ u.cancelOnFailure = false ∧ u.toCancel = [] ∧
      (∀ a, @List.count _ instBEqOfDecidableEq a u.executed
          + @List.count _ instBEqOfDecidableEq a u.pending
          + @List.count _ instBEqOfDecidableEq a u.spawned
          + @List.count _ instBEqOfDecidableEq a u.runningBody
          = @List.count _ instBEqOfDecidableEq a tasks) ∧
      (∀ g : GoError, @List.count _ instBEqOfDecidableEq (some g) u.errs
          + @List.count _ instBEqOfDecidableEq g u.toAppend
          = @List.count _ instBEqOfDecidableEq (some g) (u.executed.filter Option.isSome)))
    ?_ hinv
  rintro s1 s2 hstep ⟨hc, hcof, htc, hcount, herrs⟩
  cases hstep with
  | submit t rest hp hsem =>
    refine ⟨by simpa using hc, by simpa using hcof, by simpa using htc, ?_,
      by simpa using herrs⟩
    intro a
    have h0 := hcount a
    rw [hp] at h0
    simp only [maybeSemInc_executed, maybeSemInc_pending, maybeSemInc_spawned,
      maybeSemInc_runningBody, List.count_append, List.count_cons] at h0 ⊢
    by_cases hta : t = a <;> simp [hta] at h0 ⊢ <;> omega
  | beginRun t l1 l2 hs hcn =>
    refine ⟨by simpa using hc, by simpa using hcof, by simpa using htc, ?_,
      by simpa using herrs⟩
    intro a
    have h0 := hcount a
    rw [hs] at h0
    simp only [List.count_append, List.count_cons] at h0 ⊢
    by_cases hta : t = a <;> simp [hta] at h0 ⊢ <;> omega
  | beginSkip t l1 l2 c hs hcn =>
    rw [hc] at hcn
    cases hcn
  | finishNil l1 l2 hr =>
    refine ⟨by simpa using hc, by simpa using hcof, by simpa using htc, ?_, ?_⟩
    · intro a
      have h0 := hcount a
      rw [hr] at h0
      simp only [maybeSemDec_executed, maybeSemDec_pending, maybeSemDec_spawned,
        maybeSemDec_runningBody, List.count_append, List.count_cons] at h0 ⊢
      by_cases hta : (none : Option GoError) = a <;> simp [hta] at h0 ⊢ <;> omega
    · intro g
      have h0 := herrs g
      simp only [maybeSemDec_errs, maybeSemDec_toAppend, maybeSemDec_executed,
        List.filter_append] at h0 ⊢
      simpa using h0
  | finishErr e l1 l2 hr =>
    refine ⟨by simpa using hc, by simpa using hcof, by simpa using htc, ?_, ?_⟩
    · intro a
      have h0 := hcount a
      rw [hr] at h0
      simp only [List.count_append, List.count_cons] at h0 ⊢
      by_cases hta : (some e : Option GoError) = a <;> simp [hta] at h0 ⊢ <;> omega
    · intro g
      have h0 := herrs g
      simp only [List.filter_append, List.count_append, List.filter_cons,
        List.filter_nil, Option.isSome_some, if_true, List.count_cons,
        List.count_nil] at h0 ⊢
      by_cases heg : e = g <;> simp [heg] at h0 ⊢ <;> omega
  | doAppendCof e l1 l2 ha hsc =>
    rw [shouldCancel, hcof] at hsc
    cases hsc
  | doAppendNoCof e l1 l2 ha hsc =>
    refine ⟨by simpa using hc, by simpa using hcof, by simpa using htc, ?_, ?_⟩
    · intro a
      have h0 := hcount a
      simpa using h0
    · intro g
      have h0 := herrs g
      rw [ha] at h0
      simp only [maybeSemDec_errs, maybeSemDec_toAppend, maybeSemDec_executed,
        List.count_append, List.count_cons, List.count_nil, beq_iff_eq,
        Option.some.injEq] at h0 ⊢
      omega
  | doCancel e l1 l2 hcl =>
    rw [htc] at hcl
    exact absurd hcl (by simp)

/-- C1: with `cancelOnFailure` disabled and a live parent context, for any
batch of tasks of which exactly K fail, any concurrency limit (0 =
unlimited included) and any interleaving, a terminal state has `Wait`
returning exactly the K non-nil task errors (as a multiset) and every task
body executed to completion. -/
theorem wait_errs_of_no_cancel (tasks : List (Option GoError)) (limit : Nat)
    (s : RunnerState)
    (h : Reachable (RunnerNew none [WithLimit limit] tasks) s) (ht : s.terminal) :
    (Wait s).Perm (tasks.filter Option.isSome) ∧ s.executed.Perm tasks ∧
      (Wait s).length = (tasks.filter Option.isSome).length := by
  have hiso := errs_isSome_invariant h
    (by intro e he; simp [RunnerNew] at he)
  have hinv := noCancel_invariant tasks h
    (by refine ⟨rfl, rfl, rfl, ?_, ?_⟩ <;> intro a <;> simp [RunnerNew, WithLimit])
  obtain ⟨hc, hcof, htc, hcount, herrs⟩ := hinv
  obtain ⟨htp, hts, htr, htta, httc⟩ := ht
  have hex : s.executed.Perm tasks := by
    rw [List.perm_iff_count]
    intro a
    have h0 := hcount a
    rw [htp, hts, htr] at h0
    simpa using h0
  have herr : (Wait s).Perm (tasks.filter Option.isSome) := by
    rw [List.perm_iff_count]
    intro a
    cases a with
    | none =>
      have h1 : @List.count _ instBEqOfDecidableEq (none : Option GoError) s.errs = 0 :=
        (@List.count_eq_zero _ instBEqOfDecidableEq _ _ _).mpr
          (fun hm => by simpa using hiso none hm)
      have h2 : @List.count _ instBEqOfDecidableEq (none : Option GoError)
          (tasks.filter Option.isSome) = 0 :=
        (@List.count_eq_zero _ instBEqOfDecidableEq _ _ _).mpr
          (fun hm => by have := List.of_mem_filter hm; simp at this)
      rw [Wait, h1, h2]
    | some g =>
      have h0 := herrs g
      rw [htta] at h0
      simp only [List.count_nil, Nat.add_zero] at h0
      rw [Wait, h0]
      exact (hex.filter Option.isSome).count_eq (some g)
  exact ⟨herr, hex, herr.length_eq⟩

/-- C1 witness: three tasks, one failing, limit 1, run sequentially. -/
theorem wait_errs_of_no_cancel_witness :
    (Wait (seqRun (RunnerNew none [WithLimit 1]
        [some (GoError.errorString "boom"), none, none]))).Perm
      ([some (GoError.errorString "boom"), none, none].filter Option.isSome) ∧
    (seqRun (RunnerNew none [WithLimit 1]
        [some (GoError.errorString "boom"), none, none])).executed.Perm
      [some (GoError.errorString "boom"), none, none] ∧
    (Wait (seqRun (RunnerNew none [WithLimit 1]
        [some (GoError.errorString "boom"), none, none]))).length
      = ([some (GoError.errorString "boom"), none, none].filter Option.isSome).length :=
  wait_errs_of_no_cancel [some (GoError.errorString "boom"), none, none] 1 _
    (steps_seqRun_new none [WithLimit 1] _).1
    (steps_seqRun_new none [WithLimit 1] _).2

theorem filter_isSome_replicate_none (n : Nat) :
    (List.replicate n (none : Option GoError)).filter Option.isSome = [] := by
  induction n with
  | zero => rfl
  | succ n ih => rw [List.replicate_succ]; simp [ih]

/-- C2: a batch of N tasks that all return nil, under any limit and any
interleaving: `Wait` returns the empty error sequence and all N bodies
executed. -/
theorem wait_empty_of_all_ok (n : Nat) (limit : Nat) (s : RunnerState)
    (h : Reachable (RunnerNew none [WithLimit limit] (List.replicate n none)) s)
    (ht : s.terminal) :
    Wait s = [] ∧ s.executed = List.replicate n none ∧ s.executed.length = n := by
  have hiso := errs_isSome_invariant h
    (by intro e he; simp [RunnerNew] at he)
  have hinv := noCancel_invariant (List.replicate n none) h
    (by refine ⟨rfl, rfl, rfl, ?_, ?_⟩ <;> intro a <;> simp [RunnerNew, WithLimit])
  obtain ⟨hc, hcof, htc, hcount, herrs⟩ := hinv
  obtain ⟨htp, hts, htr, htta, httc⟩ := ht
  have hex : s.executed.Perm (List.replicate n none) := by
    rw [List.perm_iff_count]
    intro a
    have h0 := hcount a
    rw [htp, hts, htr] at h0
    simpa using h0
  have hexe : s.executed = List.replicate n none := by
    refine List.eq_replicate_iff.mpr ⟨hex.length_eq.trans (by simp), ?_⟩
    intro b hb
    exact List.eq_of_mem_replicate (hex.subset hb)
  have herr0 : Wait s = [] := by
    refine List.eq_nil_iff_forall_not_mem.mpr fun a ha => ?_
    cases a with
    | none => simpa using hiso none ha
    | some g =>
      have h0 := herrs g
      rw [htta, hexe, filter_isSome_replicate_none] at h0
      simp only [List.count_nil, Nat.add_zero] at h0
      exact ((@List.count_eq_zero _ instBEqOfDecidableEq _ _ _).mp h0) ha
  exact ⟨herr0, hexe, by rw [hexe]; simp⟩

/-- C2 witness: two nil tasks, no limit, run sequentially. -/
theorem wait_empty_of_all_ok_witness :
    Wait (seqRun (RunnerNew none [WithLimit 0] (List.replicate 2 none))) = [] ∧
      (seqRun (RunnerNew none [WithLimit 0] (List.replicate 2 none))).executed
        = List.replicate 2 none ∧
      (seqRun (RunnerNew none [WithLimit 0] (List.replicate 2 none))).executed.length = 2 :=
  wait_empty_of_all_ok 2 0 _
    (steps_seqRun_new none [WithLimit 0] _).1
    (steps_seqRun_new none [WithLimit 0] _).2

/-!
### Admission control
-/

theorem sem_invariant {s s' : RunnerState} (h : Reachable s s')
    (hinv : s.hasLimit = true →
      s.semCount = s.spawned.length + s.runningBody.length + s.toAppend.length
          + s.toCancel.length
        ∧ s.semCount ≤ s.limit) :
    s'.hasLimit = true →
      s'.semCount = s'.spawned.length + s'.runningBody.length + s'.toAppend.length
          + s'.toCancel.length
        ∧ s'.semCount ≤ s'.limit := by
  refine h.invariant
    (P := fun u => u.hasLimit = true →
      u.semCount = u.spawned.length + u.runningBody.length + u.toAppend.length
          + u.toCancel.length
        ∧ u.semCount ≤ u.limit)
    ?_ hinv
  rintro s1 s2 hstep hind hhl
  cases hstep with
  | submit t rest hp hsem =>
    simp only [maybeSemInc_limit, RunnerState.hasLimit, decide_eq_true_eq] at hhl
    obtain ⟨he, hle⟩ := hind (by simp [RunnerState.hasLimit, hhl])
    have hlt : s1.semCount < s1.limit := by
      rcases hsem with h' | h'
      · exfalso
        simp only [RunnerState.hasLimit, decide_eq_false_iff_not] at h'
        omega
      · exact h'
    simp only [maybeSemInc, RunnerState.hasLimit, decide_eq_true_eq]
    rw [if_pos hhl]
    refine ⟨?_, by omega⟩
    simp only [List.length_append, List.length_cons, List.length_nil, he]
    omega
  | beginRun t l1 l2 hs hcn =>
    obtain ⟨he, hle⟩ := hind (by simpa [RunnerState.hasLimit] using hhl)
    refine ⟨?_, by simpa using hle⟩
    rw [hs] at he
    simp only [List.length_append, List.length_cons, List.length_nil] at he ⊢
    omega
  | beginSkip t l1 l2 c hs hcn =>
    obtain ⟨he, hle⟩ := hind (by simpa [RunnerState.hasLimit] using hhl)
    refine ⟨?_, by simpa using hle⟩
    rw [hs] at he
    simp only [List.length_append, List.length_cons, List.length_nil] at he ⊢
    omega
  | finishNil l1 l2 hr =>
    simp only [maybeSemDec_limit, RunnerState.hasLimit, decide_eq_true_eq] at hhl
    obtain ⟨he, hle⟩ := hind (by simp [RunnerState.hasLimit, hhl])
    rw [hr] at he
    simp only [maybeSemDec, maybeSemDec_spawned, maybeSemDec_runningBody,
      maybeSemDec_toAppend, maybeSemDec_toCancel, RunnerState.hasLimit,
      decide_eq_true_eq]
    rw [if_pos hhl]
    simp only [List.length_append, List.length_cons, List.length_nil] at he ⊢
    omega
  | finishErr e l1 l2 hr =>
    obtain ⟨he, hle⟩ := hind (by simpa [RunnerState.hasLimit] using hhl)
    refine ⟨?_, by simpa using hle⟩
    rw [hr] at he
    simp only [List.length_append, List.length_cons, List.length_nil] at he ⊢
    omega
  | doAppendCof e l1 l2 ha hsc =>
    obtain ⟨he, hle⟩ := hind (by simpa [RunnerState.hasLimit] using hhl)
    refine ⟨?_, by simpa using hle⟩
    rw [ha] at he
    simp only [List.length_append, List.length_cons, List.length_nil] at he ⊢
    omega
  | doAppendNoCof e l1 l2 ha hsc =>
    simp only [maybeSemDec_limit, RunnerState.hasLimit, decide_eq_true_eq] at hhl
    obtain ⟨he, hle⟩ := hind (by simp [RunnerState.hasLimit, hhl])
    rw [ha] at he
    simp only [maybeSemDec, maybeSemDec_spawned, maybeSemDec_runningBody,
      maybeSemDec_toAppend, maybeSemDec_toCancel, RunnerState.hasLimit,
      decide_eq_true_eq]
    rw [if_pos hhl]
    simp only [List.length_append, List.length_cons, List.length_nil] at he ⊢
    omega
  | doCancel e l1 l2 hcl =>
    simp only [maybeSemDec_limit, cancelOnFailureCancel_limit, RunnerState.hasLimit,
      decide_eq_true_eq] at hhl
    obtain ⟨he, hle⟩ := hind (by simp [RunnerState.hasLimit, hhl])
    rw [hcl] at he
    simp only [maybeSemDec, maybeSemDec_spawned, maybeSemDec_runningBody,
      maybeSemDec_toAppend, maybeSemDec_toCancel, cancelOnFailureCancel_spawned,
      cancelOnFailureCancel_runningBody, cancelOnFailureCancel_toAppend,
      cancelOnFailureCancel_toCancel, cancelOnFailureCancel_semCount,
      cancelOnFailureCancel_limit, RunnerState.hasLimit, decide_eq_true_eq]
    rw [if_pos hhl]
    simp only [List.length_append, List.length_cons, List.length_nil] at he ⊢
    omega

/-- C8: with a limit L > 0 (with or without cancel-on-failure, any parent
context), in every reachable state at most L tasks are admitted but not
yet released, and in particular at most L task bodies run concurrently. -/
theorem running_le_limit (tasks : List (Option GoError)) (limit : Nat) (cof : Bool)
    (pc : Option GoError) (s : RunnerState) (hl : 0 < limit)
    (h : Reachable (RunnerNew pc
      (if cof then [WithCancelOnFailure, WithLimit limit] else [WithLimit limit]) tasks) s) :
    s.spawned.length + s.runningBody.length ≤ limit ∧ s.runningBody.length ≤ limit := by
  have hlim : s.limit = limit := by
    rw [reach_limit_eq h]; cases cof <;> simp [RunnerNew, WithLimit, WithCancelOnFailure]
  have hinv := sem_invariant h (by
    intro _
    cases cof <;> exact ⟨rfl, Nat.zero_le _⟩)
  have hhl : s.hasLimit = true := by
    simp [RunnerState.hasLimit, hlim]; omega
  obtain ⟨he, hle⟩ := hinv hhl
  rw [he, hlim] at hle
  omega

/-- C8 witness: limit 1, one task just admitted: one slot in use, bound 1
respected. -/
theorem running_le_limit_witness :
    (submitFirst (RunnerNew none [WithLimit 1] [none]) none []).spawned.length
        + (submitFirst (RunnerNew none [WithLimit 1] [none]) none []).runningBody.length ≤ 1 ∧
      (submitFirst (RunnerNew none [WithLimit 1] [none]) none []).runningBody.length ≤ 1 :=
  running_le_limit [none] 1 false none _ (by decide)
    (Relation.ReflTransGen.single
      (Step.submit (RunnerNew none [WithLimit 1] [none]) none [] rfl (by decide)))

/-- C9: with no `WithLimit` option, or with `WithLimit 0`, the runner has
no admission gate: `hasLimit` is false and in every reachable state a
pending `Go` call is immediately enabled (it never blocks on admission). -/
theorem go_never_blocks_without_limit (pc : Option GoError)
    (opts : List (RunnerOptions → RunnerOptions)) (tasks : List (Option GoError))
    (s : RunnerState) (t : Option GoError) (rest : List (Option GoError))
    (hopts : opts = [] ∨ opts = [WithLimit 0])
    (h : Reachable (RunnerNew pc opts tasks) s) (hp : s.pending = t :: rest) :
    s.hasLimit = false ∧ Step s (submitFirst s t rest) := by
  have hlim : s.limit = 0 := by
    rw [reach_limit_eq h]
    rcases hopts with h' | h' <;> subst h' <;> simp [RunnerNew, WithLimit]
  have hhl : s.hasLimit = false := by simp [RunnerState.hasLimit, hlim]
  exact ⟨hhl, Step.submit s t rest hp (Or.inl hhl)⟩

/-- C9 witness: a runner built with no options at all. -/
theorem go_never_blocks_without_limit_witness :
    (RunnerNew none [] [none]).hasLimit = false ∧
      Step (RunnerNew none [] [none]) (submitFirst (RunnerNew none [] [none]) none []) :=
  go_never_blocks_without_limit none [] [none] _ none [] (Or.inl rfl)
    Relation.ReflTransGen.refl rfl

/-- C10: every element of the sequence returned by `Wait` models a non-nil
Go error, in every reachable state of every runner configuration. -/
theorem wait_errs_nonnil (pc : Option GoError) (cof : Bool) (limit : Nat)
    (tasks : List (Option GoError)) (s : RunnerState) (e : Option GoError)
    (h : Reachable (RunnerNew pc
      (if cof then [WithCancelOnFailure, WithLimit limit] else [WithLimit limit]) tasks) s)
    (he : e ∈ Wait s) : e.isSome = true := by
  refine errs_isSome_invariant h ?_ e he
  intro e0 he0
  cases cof <;> simp [RunnerNew] at he0

/-- C10 witness: the error collected for a failing task in a concrete
sequential run is non-nil. -/
theorem wait_errs_nonnil_witness :
    ((Wait (seqRun (RunnerNew none [WithCancelOnFailure, WithLimit 0]
      [some (GoError.errorString "x")]))).getD 0 none).isSome = true :=
  wait_errs_nonnil none true 0 [some (GoError.errorString "x")] _ _
    (steps_seqRun_new none [WithCancelOnFailure, WithLimit 0] _).1
    (by decide)

/-!
### Cancel-on-failure: one-shot trigger, cause taken from a real failure

The slice mutex and the `sync.Once` are separate critical sections, so the
failure that wins the race to fire the canceler need not be the first
error appended to the slice.  What the program does guarantee: the
canceler fires at most once, the cause it records is the error of a
goroutine that had already appended that same error to the collector, the
cause never changes afterwards, and every failure is appended exactly
once regardless of who won the race.
-/

theorem errs_length_invariant {s s' : RunnerState} (h : Reachable s s')
    (hinv : s.errs.length + s.toAppend.length
      = (s.executed.filter Option.isSome).length + s.skipped) :
    s'.errs.length + s'.toAppend.length
      = (s'.executed.filter Option.isSome).length + s'.skipped := by
  refine h.invariant
    (P := fun u => u.errs.length + u.toAppend.length
      = (u.executed.filter Option.isSome).length + u.skipped)
    ?_ hinv
  rintro s1 s2 hstep hind
  cases hstep with
  | submit t rest hp hsem => simpa using hind
  | beginRun t l1 l2 hs hcn => simpa using hind
  | beginSkip t l1 l2 c hs hcn =>
    simp only [List.length_append, List.length_cons, List.length_nil]
    omega
  | finishNil l1 l2 hr =>
    simp only [maybeSemDec_errs, maybeSemDec_toAppend, maybeSemDec_executed,
      maybeSemDec_skipped, List.filter_append]
    simpa using hind
  | finishErr e l1 l2 hr =>
    simp only [List.filter_append, List.length_append, List.filter_cons,
      List.filter_nil, Option.isSome_some, if_true, List.length_cons, List.length_nil]
    omega
  | doAppendCof e l1 l2 ha hsc =>
    rw [ha] at hind
    simp only [List.length_append, List.length_cons, List.length_nil] at hind ⊢
    omega
  | doAppendNoCof e l1 l2 ha hsc =>
    rw [ha] at hind
    simp only [maybeSemDec_errs, maybeSemDec_toAppend, maybeSemDec_executed,
      maybeSemDec_skipped, List.length_append, List.length_cons,
      List.length_nil] at hind ⊢
    omega
  | doCancel e l1 l2 hcl => simpa using hind

theorem cof_trigger_invariant {s s' : RunnerState} (h : Reachable s s')
    (hinv : s.cancelOnFailure = true ∧ s.cause.isSome = s.onceUsed ∧
      (∀ c, s.cause = some c → (some c) ∈ s.errs) ∧
      (∀ e ∈ s.toCancel, (some e) ∈ s.errs)) :
    s'.cancelOnFailure = true ∧ s'.cause.isSome = s'.onceUsed ∧
      (∀ c, s'.cause = some c → (some c) ∈ s'.errs) ∧
      (∀ e ∈ s'.toCancel, (some e) ∈ s'.errs) := by
  refine h.invariant
    (P := fun u => u.cancelOnFailure = true ∧ u.cause.isSome = u.onceUsed ∧
      (∀ c, u.cause = some c → (some c) ∈ u.errs) ∧
      (∀ e ∈ u.toCancel, (some e) ∈ u.errs))
    ?_ hinv
  rintro s1 s2 hstep ⟨hcof, honce, hmem, hcanc⟩
  cases hstep with
  | submit t rest hp hsem => exact ⟨hcof, honce, hmem, hcanc⟩
  | beginRun t l1 l2 hs hcn => exact ⟨hcof, honce, hmem, hcanc⟩
  | beginSkip t l1 l2 c hs hcn => exact ⟨hcof, honce, hmem, hcanc⟩
  | finishNil l1 l2 hr => exact ⟨hcof, honce, hmem, hcanc⟩
  | finishErr e l1 l2 hr => exact ⟨hcof, honce, hmem, hcanc⟩
  | doAppendCof e l1 l2 ha hsc =>
    refine ⟨hcof, honce, ?_, ?_⟩
    · intro c hc
      exact List.mem_append_left _ (hmem c hc)
    · intro x hx
      simp only [List.mem_append, List.mem_singleton] at hx
      rcases hx with hx | hx
      · exact List.mem_append_left _ (hcanc x hx)
      · rw [hx]
        exact List.mem_append_right _ (by simp)
  | doAppendNoCof e l1 l2 ha hsc =>
    rw [shouldCancel, hcof] at hsc
    cases hsc
  | doCancel e l1 l2 hcl =>
    cases ho : s1.onceUsed with
    | true =>
      rw [cancelOnFailureCancel_of_onceUsed
        { s1 with toCancel := l1 ++ l2, onceUsed := true } e rfl]
      refine ⟨hcof, honce.trans ho, hmem, ?_⟩
      intro x hx
      simp only [maybeSemDec_toCancel] at hx
      refine hcanc x ?_
      rw [hcl]
      simp only [List.mem_append, List.mem_cons] at hx ⊢
      tauto
    | false =>
      have hcn : s1.cause = none := by
        rw [ho] at honce
        cases hv : s1.cause with
        | none => rfl
        | some c0 => rw [hv] at honce; simp at honce
      have hred : cancelOnFailureCancel
          { s1 with toCancel := l1 ++ l2, onceUsed := false } e
          = { s1 with
              toCancel := l1 ++ l2
              onceUsed := true
              cause := some (s1.cause.getD e) } := by
        unfold cancelOnFailureCancel
        rw [if_neg (by simp)]
      rw [hred]
      refine ⟨hcof, by simp, ?_, ?_⟩
      · intro c hc
        simp only [maybeSemDec_cause, hcn, Option.getD_none] at hc
        simp only [maybeSemDec_errs]
        cases hc
        refine hcanc e ?_
        rw [hcl]
        simp
      · intro x hx
        simp only [maybeSemDec_toCancel] at hx
        simp only [maybeSemDec_errs]
        refine hcanc x ?_
        rw [hcl]
        simp only [List.mem_append, List.mem_cons] at hx ⊢
        tauto

/-- C6: with cancel-on-failure enabled and a live parent context, in every
reachable state: the canceler has fired iff the derived context is done,
and then its cause is the error of an observed task failure that is
already in the error collector; the cause never changes along any further
execution and later trigger attempts are no-ops on the state; and the
collector holds one entry per failed body plus one per skipped task
(counting failures whose append is still pending), exactly once `Wait`
returns. -/
theorem cancel_once_first_failure (tasks : List (Option GoError)) (s : RunnerState)
    (h : Reachable (RunnerNew none [WithCancelOnFailure] tasks) s) :
    (∀ c, s.cause = some c → s.onceUsed = true ∧ (some c) ∈ s.errs) ∧
      (s.onceUsed = true → ∃ c, s.cause = some c) ∧
      (∀ c s2, s.cause = some c → Reachable s s2 → s2.cause = some c) ∧
      (∀ e, s.onceUsed = true → cancelOnFailureCancel s e = s) ∧
      s.errs.length + s.toAppend.length
        = (s.executed.filter Option.isSome).length + s.skipped ∧
      (s.terminal →
        s.errs.length = (s.executed.filter Option.isSome).length + s.skipped) := by
  have hlen := errs_length_invariant h (by simp [RunnerNew])
  have hinit : (RunnerNew none [WithCancelOnFailure] tasks).cancelOnFailure = true ∧
      (RunnerNew none [WithCancelOnFailure] tasks).cause.isSome
        = (RunnerNew none [WithCancelOnFailure] tasks).onceUsed ∧
      (∀ c, (RunnerNew none [WithCancelOnFailure] tasks).cause = some c →
        (some c) ∈ (RunnerNew none [WithCancelOnFailure] tasks).errs) ∧
      (∀ e ∈ (RunnerNew none [WithCancelOnFailure] tasks).toCancel,
        (some e) ∈ (RunnerNew none [WithCancelOnFailure] tasks).errs) := by
    refine ⟨rfl, rfl, ?_, ?_⟩
    · intro c hc
      simp [RunnerNew] at hc
    · intro e he
      simp [RunnerNew] at he
  have htr := cof_trigger_invariant h hinit
  obtain ⟨hcof, honce, hmem, hcanc⟩ := htr
  refine ⟨?_, ?_, ?_, ?_, hlen, ?_⟩
  · intro c hc
    refine ⟨?_, hmem c hc⟩
    rw [← honce, hc]
    rfl
  · intro hu
    cases hv : s.cause with
    | some c => exact ⟨c, rfl⟩
    | none =>
      rw [hv] at honce
      rw [hu] at honce
      cases honce
  · intro c s2 hc h2
    exact reach_cause_mono h2 c hc
  · intro e hu
    exact cancelOnFailureCancel_of_onceUsed s e hu
  · rintro ⟨_, _, _, hta, _⟩
    rw [hta] at hlen
    simpa using hlen

/-- C6 witness: first task fails with a domain error, second is skipped;
the once fired, the recorded cause is that collected failure, and the
collector holds one entry per failed body plus one per skip. -/
theorem cancel_once_first_failure_witness :
    ((seqRun (RunnerNew none [WithCancelOnFailure]
        [some (GoError.errorString "boom"), none])).onceUsed = true ∧
      (some (GoError.errorString "boom") : Option GoError)
        ∈ (seqRun (RunnerNew none [WithCancelOnFailure]
            [some (GoError.errorString "boom"), none])).errs) ∧
    (seqRun (RunnerNew none [WithCancelOnFailure]
        [some (GoError.errorString "boom"), none])).errs.length
      = ((seqRun (RunnerNew none [WithCancelOnFailure]
          [some (GoError.errorString "boom"), none])).executed.filter
            Option.isSome).length
        + (seqRun (RunnerNew none [WithCancelOnFailure]
            [some (GoError.errorString "boom"), none])).skipped := by
  have h := cancel_once_first_failure [some (GoError.errorString "boom"), none] _
    (steps_seqRun_new none [WithCancelOnFailure] _).1
  refine ⟨?_, ?_⟩
  · have h1 := h.1 (GoError.errorString "boom") (by decide)
    exact ⟨h1.1, h1.2⟩
  · exact h.2.2.2.2.2 (steps_seqRun_new none [WithCancelOnFailure] _).2

/-!
### External cancellation of the parent context before any submission
-/

theorem extCancel_invariant (c : GoError) (n : Nat)
    (hstd : (errorsIs c .canceled || errorsIs c .deadlineExceeded) = true)
    {s s' : RunnerState} (h : Reachable s s')
    (hinv : s.cause = some c ∧ s.executed = [] ∧ s.runningBody = [] ∧
      (∀ x ∈ s.errs, x = some c) ∧ (∀ g ∈ s.toAppend, g = c) ∧
      s.errs.length + s.toAppend.length = s.skipped ∧
      s.skipped + s.pending.length + s.spawned.length = n) :
    s'.cause = some c ∧ s'.executed = [] ∧ s'.runningBody = [] ∧
      (∀ x ∈ s'.errs, x = some c) ∧ (∀ g ∈ s'.toAppend, g = c) ∧
      s'.errs.length + s'.toAppend.length = s'.skipped ∧
      s'.skipped + s'.pending.length + s'.spawned.length = n := by
  refine h.invariant
    (P := fun u => u.cause = some c ∧ u.executed = [] ∧ u.runningBody = [] ∧
      (∀ x ∈ u.errs, x = some c) ∧ (∀ g ∈ u.toAppend, g = c) ∧
      u.errs.length + u.toAppend.length = u.skipped ∧
      u.skipped + u.pending.length + u.spawned.length = n)
    ?_ hinv
  rintro s1 s2 hstep ⟨hc, hex, hrb, herr, hta, hlen, hsum⟩
  cases hstep with
  | submit t rest hp hsem =>
    refine ⟨hc, hex, hrb, herr, hta, hlen, ?_⟩
    rw [hp] at hsum
    simp only [maybeSemInc_skipped, maybeSemInc_pending, maybeSemInc_spawned,
      List.length_append, List.length_cons, List.length_nil] at hsum ⊢
    omega
  | beginRun t l1 l2 hs hcn =>
    rw [hc] at hcn
    cases hcn
  | beginSkip t l1 l2 c0 hs hcn =>
    have hskip : causeForTaskSkip s1.cause = c := by
      rw [hc]
      simp only [causeForTaskSkip, hstd, if_true]
    refine ⟨hc, hex, hrb, herr, ?_, ?_, ?_⟩
    · intro g hg
      simp only [List.mem_append, List.mem_singleton] at hg
      rcases hg with hg | hg
      · exact hta g hg
      · rw [hg, hskip]
    · simp only [List.length_append, List.length_cons, List.length_nil]
      omega
    · rw [hs] at hsum
      simp only [List.length_append, List.length_cons, List.length_nil] at hsum ⊢
      omega
  | finishNil l1 l2 hr =>
    rw [hrb] at hr
    exact absurd hr (by simp)
  | finishErr e l1 l2 hr =>
    rw [hrb] at hr
    exact absurd hr (by simp)
  | doAppendCof e l1 l2 ha hsc =>
    have he : e = c := hta e (by rw [ha]; simp)
    refine ⟨hc, hex, hrb, ?_, ?_, ?_, ?_⟩
    · intro x hx
      simp only [List.mem_append, List.mem_singleton] at hx
      rcases hx with hx | hx
      · exact herr x hx
      · rw [hx, he]
    · intro g hg
      refine hta g ?_
      rw [ha]
      simp only [List.mem_append, List.mem_cons] at hg ⊢
      tauto
    · rw [ha] at hlen
      simp only [List.length_append, List.length_cons, List.length_nil] at hlen ⊢
      omega
    · simpa using hsum
  | doAppendNoCof e l1 l2 ha hsc =>
    have he : e = c := hta e (by rw [ha]; simp)
    refine ⟨hc, hex, hrb, ?_, ?_, ?_, ?_⟩
    · intro x hx
      simp only [maybeSemDec_errs, List.mem_append, List.mem_singleton] at hx
      rcases hx with hx | hx
      · exact herr x hx
      · rw [hx, he]
    · intro g hg
      simp only [maybeSemDec_toAppend] at hg
      refine hta g ?_
      rw [ha]
      simp only [List.mem_append, List.mem_cons] at hg ⊢
      tauto
    · rw [ha] at hlen
      simp only [maybeSemDec_errs, maybeSemDec_toAppend, maybeSemDec_skipped,
        List.length_append, List.length_cons, List.length_nil] at hlen ⊢
      omega
    · simpa using hsum
  | doCancel e l1 l2 hcl =>
    refine ⟨?_, ?_, ?_, ?_, ?_, ?_, ?_⟩
    · simp only [maybeSemDec_cause]
      exact cancelOnFailureCancel_cause_of_some _ _ _ hc
    · simpa using hex
    · simpa using hrb
    · simpa using herr
    · simpa using hta
    · simpa using hlen
    · simpa using hsum

/-- C7: if the parent context is cancelled (with the standard explicit
cancel or deadline-exceeded cause) before any task is submitted, then
whether or not cancel-on-failure is configured, no task body ever runs and
`Wait` returns one copy of the external cause per submitted task. -/
theorem external_cancel_skips_all (tasks : List (Option GoError)) (cof : Bool)
    (c : GoError) (s : RunnerState)
    (hc : c = GoError.canceled ∨ c = GoError.deadlineExceeded)
    (h : Reachable (RunnerNew (some c)
      (if cof then [WithCancelOnFailure] else []) tasks) s)
    (ht : s.terminal) :
    s.executed = [] ∧ Wait s = List.replicate tasks.length (some c) ∧
      s.skipped = tasks.length := by
  have hstd : (errorsIs c .canceled || errorsIs c .deadlineExceeded) = true := by
    rcases hc with hc | hc <;> rw [hc] <;> rfl
  have hinv := extCancel_invariant c tasks.length hstd h
    (by
      refine ⟨rfl, rfl, rfl, ?_, ?_, rfl, ?_⟩
      · intro x hx
        cases cof <;> simp [RunnerNew] at hx
      · intro g hg
        cases cof <;> simp [RunnerNew] at hg
      · cases cof <;> simp [RunnerNew])
  obtain ⟨hcau, hex, hrb, herr, hta, hlen, hsum⟩ := hinv
  obtain ⟨htp, hts, _, htta, _⟩ := ht
  rw [htp, hts] at hsum
  rw [htta] at hlen
  simp only [List.length_nil] at hsum hlen
  have hskip : s.skipped = tasks.length := by omega
  have herrlen : s.errs.length = tasks.length := by omega
  refine ⟨hex, ?_, hskip⟩
  rw [Wait]
  refine List.eq_replicate_iff.mpr ⟨herrlen, ?_⟩
  intro b hb
  exact herr b hb

/-- C7 witness: parent cancelled before a single task is submitted, with
cancel-on-failure on: the task is skipped and records the external cause. -/
theorem external_cancel_skips_all_witness :
    (seqRun (RunnerNew (some GoError.canceled) [WithCancelOnFailure] [none])).executed = [] ∧
      Wait (seqRun (RunnerNew (some GoError.canceled) [WithCancelOnFailure] [none]))
        = List.replicate 1 (some GoError.canceled) ∧
      (seqRun (RunnerNew (some GoError.canceled) [WithCancelOnFailure] [none])).skipped = 1 :=
  external_cancel_skips_all [none] true GoError.canceled _ (Or.inl rfl)
    (steps_seqRun_new (some GoError.canceled) [WithCancelOnFailure] _).1
    (steps_seqRun_new (some GoError.canceled) [WithCancelOnFailure] _).2

/-!
### Sequential cancel-on-failure scenarios
-/

/-- C3: cancel-on-failure with strictly sequential submission (each `Go`
followed by a `Wait`), eight tasks of which only index 1 fails: this is a
genuine execution of the step semantics, its `Wait` returns 7 errors — 6
cancellation errors and 1 original failure — all non-nil, only the first
two task bodies ran, the remaining 6 tasks were skipped, and the
cancellation error value differs from the triggering task's error. -/
theorem sequential_cancel_on_failure_eight_tasks :
    Reachable
      (RunnerNew none [WithCancelOnFailure]
        [none, some (GoError.errorString "test error"), none, none, none, none, none, none])
      (seqRun (RunnerNew none [WithCancelOnFailure]
        [none, some (GoError.errorString "test error"), none, none, none, none, none, none])) ∧
    (Wait (seqRun (RunnerNew none [WithCancelOnFailure]
        [none, some (GoError.errorString "test error"),
          none, none, none, none, none, none]))).length = 7 ∧
    (Wait (seqRun (RunnerNew none [WithCancelOnFailure]
        [none, some (GoError.errorString "test error"),
          none, none, none, none, none, none]))).count (some GoError.canceled) = 6 ∧
    (Wait (seqRun (RunnerNew none [WithCancelOnFailure]
        [none, some (GoError.errorString "test error"),
          none, none, none, none, none, none]))).count
      (some (GoError.errorString "test error")) = 1 ∧
    (Wait (seqRun (RunnerNew none [WithCancelOnFailure]
        [none, some (GoError.errorString "test error"),
          none, none, none, none, none, none]))).all Option.isSome = true ∧
    (seqRun (RunnerNew none [WithCancelOnFailure]
        [none, some (GoError.errorString "test error"),
          none, none, none, none, none, none])).skipped = 6 ∧
    (seqRun (RunnerNew none [WithCancelOnFailure]
        [none, some (GoError.errorString "test error"),
          none, none, none, none, none, none])).executed
      = [none, some (GoError.errorString "test error")] ∧
    GoError.canceled ≠ GoError.errorString "test error" := by
  refine ⟨(steps_seqRun_new none [WithCancelOnFailure] _).1, ?_⟩
  decide

/-- C4: resolution of the synthesized error for a skipped task: a
standard explicit-cancel or deadline-exceeded cause is recorded verbatim
(and those two stay distinct); any other cause — in particular a prior
task's own error — is replaced by the generic `context.Canceled` marker
and is never the original error itself. -/
theorem causeForTaskSkip_resolution (c : GoError) :
    ((c = GoError.canceled ∨ c = GoError.deadlineExceeded) →
      causeForTaskSkip (some c) = c) ∧
    (c ≠ GoError.canceled → c ≠ GoError.deadlineExceeded →
      causeForTaskSkip (some c) = GoError.canceled ∧ causeForTaskSkip (some c) ≠ c) ∧
    causeForTaskSkip (some GoError.canceled)
      ≠ causeForTaskSkip (some GoError.deadlineExceeded) := by
  refine ⟨?_, ?_, by decide⟩
  · rintro (h | h) <;> rw [h] <;> rfl
  · intro h1 h2
    have hm : (errorsIs c .canceled || errorsIs c .deadlineExceeded) = false := by
      simp only [errorsIs, Bool.or_eq_false_iff, beq_eq_false_iff_ne, ne_eq]
      exact ⟨h1, h2⟩
    refine ⟨by simp [causeForTaskSkip, hm], ?_⟩
    simp only [causeForTaskSkip, hm, Bool.false_eq_true, if_false]
    exact fun hh => h1 hh.symm

/-- C4 witness: deadline-exceeded is preserved verbatim; a domain error as
cause is replaced by the marker and differs from the original. -/
theorem causeForTaskSkip_resolution_witness :
    causeForTaskSkip (some GoError.deadlineExceeded) = GoError.deadlineExceeded ∧
      causeForTaskSkip (some (GoError.errorString "task failed")) = GoError.canceled ∧
      causeForTaskSkip (some (GoError.errorString "task failed"))
        ≠ GoError.errorString "task failed" :=
  ⟨(causeForTaskSkip_resolution GoError.deadlineExceeded).1 (Or.inr rfl),
    ((causeForTaskSkip_resolution (GoError.errorString "task failed")).2.1
      (by decide) (by decide)).1,
    ((causeForTaskSkip_resolution (GoError.errorString "task failed")).2.1
      (by decide) (by decide)).2⟩

/-- C5 counterexample: the error recorded for a task skipped because
cancel-on-failure triggered is literally `context.Canceled`, the very same
value a run skipping on a generic external cancellation records, so an
identity or error-kind check cannot distinguish the two. -/
theorem internal_marker_equals_external_cancel :
    (Wait (seqRun (RunnerNew none [WithCancelOnFailure]
        [some (GoError.errorString "boom"), none]))).getD 1 none
      = (Wait (seqRun (RunnerNew (some GoError.canceled) [] [none]))).getD 0 none ∧
    (Wait (seqRun (RunnerNew none [WithCancelOnFailure]
        [some (GoError.errorString "boom"), none]))).getD 1 none
      = some GoError.canceled := by
  decide

/-- C5 amended: the error recorded for a task skipped because
cancel-on-failure triggered is non-nil and is not the original triggering
task's error, but it is the value `context.Canceled` itself, identical to
the error recorded for a generic external cancellation. -/
theorem skip_marker_is_context_canceled (e : GoError)
    (h1 : e ≠ GoError.canceled) (h2 : e ≠ GoError.deadlineExceeded) :
    Wait (seqRun (RunnerNew none [WithCancelOnFailure] [some e, none]))
      = [some e, some GoError.canceled] ∧
    some GoError.canceled ≠ (some e : Option GoError) := by
  have hm : (errorsIs e .canceled || errorsIs e .deadlineExceeded) = false := by
    simp only [errorsIs, Bool.or_eq_false_iff, beq_eq_false_iff_ne, ne_eq]
    exact ⟨h1, h2⟩
  constructor
  · simp [seqRun, seqRunN, seqRunOne, submitFirst, beginFirst, finishNilFirst,
      finishErrFirst, skipEnter, appendFirstCof, appendFirstNoCof, cancelFirst,
      maybeSemInc, maybeSemDec, shouldCancel, cancelOnFailureCancel,
      causeForTaskSkip, RunnerNew, WithCancelOnFailure, RunnerState.hasLimit,
      Wait, hm]
  · exact fun hh => h1 (Option.some.inj hh).symm

/-- C5 amended witness. -/
theorem skip_marker_is_context_canceled_witness :
    Wait (seqRun (RunnerNew none [WithCancelOnFailure]
        [some (GoError.errorString "boom"), none]))
      = [some (GoError.errorString "boom"), some GoError.canceled] ∧
    some GoError.canceled ≠ (some (GoError.errorString "boom") : Option GoError) :=
  skip_marker_is_context_canceled (GoError.errorString "boom") (by decide) (by decide)
